import Mathlib

/-!
Verification of the RESP command splitter
(`src/source/common/redis/command_splitter_impl.cc`).

The embedding models the splitter state machines as pure Lean functions and
explicit state records.  Callback effects (`callbacks_.onResponse(...)`) are
recorded as lists of emitted reply values; pool interactions
(`conn_pool.makeRequest`, `conn_pool.getHost`, `Handle::cancel`) are recorded
as explicit call logs so that frame conditions can be stated.
-/

namespace RedisSplitter

/-- RESP value type tags, mirroring `RespType` in the source. -/
inductive RespType where
  | SimpleString
  | Error
  | Integer
  | BulkString
  | Array
  | Null
deriving DecidableEq, Repr

/-- A decoded RESP value, mirroring `RespValue`: a tagged variant whose
non-container variants carry a byte string (modelled as `String`) or a signed
integer, and whose `Array` variant carries an ordered list of values. -/
inductive RespValue where
  | simple (s : String)
  | error (s : String)
  | integer (n : Int)
  | bulk (s : String)
  | array (vs : List RespValue)
  | null

namespace RespValue

/-- `RespValue::type()`. -/
def rtype : RespValue → RespType
  | .simple _ => .SimpleString
  | .error _ => .Error
  | .integer _ => .Integer
  | .bulk _ => .BulkString
  | .array _ => .Array
  | .null => .Null

/-- `RespValue::asString()`.  In C++ this asserts that the value holds a
string; for the non-string variants (never read on valid paths) the model
returns the empty string. -/
def asString : RespValue → String
  | .simple s => s
  | .error s => s
  | .bulk s => s
  | _ => ""

end RespValue

/-- `Utility::makeError`: build a RESP `Error` carrying the message. -/
def Utility.makeError (error : String) : RespValue :=
  RespValue.error error

/-- `SplitRequestBase::onWrongNumberOfArguments`: the error reply it passes to
`callbacks.onResponse`, built from element 0 of the incoming array. -/
def SplitRequestBase.onWrongNumberOfArguments (request : List RespValue) : RespValue :=
  Utility.makeError
    ("wrong number of arguments for '" ++ (request.getD 0 RespValue.null).asString ++ "' command")

/-! ## SingleServerRequest (base of SimpleRequest and EvalRequest) -/

/-- Observable state of a `SingleServerRequest`: whether the pool handle
`handle_` is non-null, and the list of replies passed to
`callbacks_.onResponse` so far. -/
structure SSState where
  handle : Bool
  delivered : List RespValue

/-- `SingleServerRequest::onResponse`: null the handle, forward the reply. -/
def SingleServerRequest.onResponse (st : SSState) (response : RespValue) : SSState :=
  { handle := false, delivered := st.delivered ++ [response] }

/-- `SingleServerRequest::onFailure`: null the handle, reply
`Error("upstream failure")`. -/
def SingleServerRequest.onFailure (st : SSState) : SSState :=
  { handle := false, delivered := st.delivered ++ [Utility.makeError "upstream failure"] }

/-- `SingleServerRequest::cancel`: `handle_->cancel(); handle_ = nullptr;`.
The dereference of `handle_` is unconditional, so when the handle is already
null the call dereferences a null pointer; the model returns `none` for that
undefined behaviour, and `some` of the post-state otherwise. -/
def SingleServerRequest.cancel (st : SSState) : Option SSState :=
  if st.handle then some { st with handle := false } else none

/-! ## SimpleRequest / EvalRequest creation

`create` is modelled as a pure function from the incoming array (the
dispatcher has already guaranteed `Array` of `BulkString`s) and a pool
acceptance predicate (whether `conn_pool.makeRequest` returns a handle for a
given routing key) to the replies emitted inside `create`, the returned
request (or `none` for a null `SplitRequestPtr`), and the logs of
`conn_pool.makeRequest` and `conn_pool.getHost` calls made. -/

structure CreateResult where
  emitted : List RespValue
  result : Option SSState
  poolCalls : List (String × RespValue)
  hostCalls : List String

/-- `SimpleRequest::create`: route by element 1, forward the request
unchanged; on a null handle reply `Error("no upstream host")` and return
null. -/
def SimpleRequest.create (accept : String → Bool) (incoming_request : List RespValue) :
    CreateResult :=
  let key := (incoming_request.getD 1 RespValue.null).asString
  if accept key then
    { emitted := []
      result := some { handle := true, delivered := [] }
      poolCalls := [(key, RespValue.array incoming_request)]
      hostCalls := [] }
  else
    { emitted := [Utility.makeError "no upstream host"]
      result := none
      poolCalls := [(key, RespValue.array incoming_request)]
      hostCalls := [] }

/-- `EvalRequest::create`: arity check `size < 4` first (no pool call on
violation), then route by element 3, forwarding the request unchanged. -/
def EvalRequest.create (accept : String → Bool) (incoming_request : List RespValue) :
    CreateResult :=
  if incoming_request.length < 4 then
    { emitted := [SplitRequestBase.onWrongNumberOfArguments incoming_request]
      result := none
      poolCalls := []
      hostCalls := [] }
  else
    let key := (incoming_request.getD 3 RespValue.null).asString
    if accept key then
      { emitted := []
        result := some { handle := true, delivered := [] }
        poolCalls := [(key, RespValue.array incoming_request)]
        hostCalls := [] }
    else
      { emitted := [Utility.makeError "no upstream host"]
        result := none
        poolCalls := [(key, RespValue.array incoming_request)]
        hostCalls := [] }

example : Utility.makeError "x" = RespValue.error "x" := rfl
example : (RespValue.array [RespValue.bulk "a"]).rtype = RespType.Array := rfl

/-! ## FragmentedRequest / MGETRequest -/

/-- Observable state of an `MGETRequest`: the slots of `pending_response_`
(an `Array` whose length is fixed at construction), per-child liveness of
`pending_requests_[i].handle_`, `num_pending_responses_`, `error_count_`, and
the list of replies passed to `callbacks_.onResponse` so far. -/
structure MGETState where
  slots : List RespValue
  handles : List Bool
  numPending : Nat
  errorCount : Nat
  delivered : List RespValue

/-- The effect of the C++ `RespValue::type(t)` setter: switching the variant
discards the previous payload and default-initialises the new one. -/
def setType : RespType → RespValue
  | .SimpleString => RespValue.simple ""
  | .Error => RespValue.error ""
  | .Integer => RespValue.integer 0
  | .BulkString => RespValue.bulk ""
  | .Array => RespValue.array []
  | .Null => RespValue.null

/-- One iteration of the `Array` splice loop in `MGETRequest::onChildResponse`:
`slot.type(element_type); if (element_type != Null) slot.asString().swap(...)`.
The swap targets a freshly type-switched slot, so the slot simply receives the
element's string.  (For `Integer`/`Array` elements the C++ `asString()` would
assert; those elements never occur on valid paths and the model leaves the
default payload in place.) -/
def spliceStep (e : RespValue) : RespValue :=
  match e with
  | RespValue.simple s => RespValue.simple s
  | RespValue.error s => RespValue.error s
  | RespValue.bulk s => RespValue.bulk s
  | RespValue.integer _ => RespValue.integer 0
  | RespValue.array _ => RespValue.array []
  | RespValue.null => RespValue.null

/-- The value `pending_response_->asArray()[index]` holds after the `switch`
in `MGETRequest::onChildResponse`, together with the increment applied to
`error_count_`.  The slot's previous content never survives: the switch is
preceded by `slot.type(value->type())`, which resets the payload. -/
def MGETRequest.updateSlot (value : RespValue) (response_indexes : List Nat) :
    RespValue × Nat :=
  match value with
  | RespValue.integer _ => (Utility.makeError "upstream protocol error", 1)
  | RespValue.simple _ => (Utility.makeError "upstream protocol error", 1)
  | RespValue.error s => (RespValue.error s, 1)
  | RespValue.bulk s => (RespValue.bulk s, 1)
  | RespValue.array vs =>
      ((List.range response_indexes.length).foldl
        (fun _slot i => spliceStep (vs.getD i RespValue.null)) (setType RespType.Array), 0)
  | RespValue.null => (RespValue.null, 0)

/-- `MGETRequest::onChildResponse(value, index, response_indexes)`: null the
child's handle, rewrite slot `index`, bump `error_count_` per the switch,
decrement `num_pending_responses_` (asserted positive in the source), and on
reaching zero deliver `pending_response_` through `callbacks_.onResponse`. -/
def MGETRequest.onChildResponse (st : MGETState) (value : RespValue) (index : Nat)
    (response_indexes : List Nat) : MGETState :=
  let p := MGETRequest.updateSlot value response_indexes
  let slots := st.slots.set index p.1
  let np := st.numPending - 1
  { slots := slots
    handles := st.handles.set index false
    numPending := np
    errorCount := st.errorCount + p.2
    delivered := if np = 0 then st.delivered ++ [RespValue.array slots] else st.delivered }

/-- `FragmentedRequest::onChildFailure`: a failed child is aggregated as
`Error("upstream failure")`. -/
def FragmentedRequest.onChildFailure (st : MGETState) (index : Nat)
    (response_indexes : List Nat) : MGETState :=
  MGETRequest.onChildResponse st (Utility.makeError "upstream failure") index response_indexes

/-- An atomic event in an MGET request's life: `arm i` records
`pending_requests_[i].handle_` becoming live (the pool accepted child `i`
inside `create`); `settle i v` records `onChildResponse(v, i, [i])` running
for child `i` — either the synchronous rejection path inside `create` or a
later pool callback.  `create` always registers `response_indexes = [i]` for
child `i`. -/
inductive Op where
  | arm (i : Nat)
  | settle (i : Nat) (v : RespValue)

/-- Apply one event to the MGET state. -/
def applyOp (st : MGETState) : Op → MGETState
  | Op.arm i => { st with handles := st.handles.set i true }
  | Op.settle i v => MGETRequest.onChildResponse st v i [i]

/-- Run a sequence of events. -/
def runFrom (st : MGETState) (ops : List Op) : MGETState :=
  ops.foldl applyOp st

/-- The settle events of a sequence, in order. -/
def settles : List Op → List (Nat × RespValue)
  | [] => []
  | Op.arm _ :: rest => settles rest
  | Op.settle i v :: rest => (i, v) :: settles rest

/-- The indexes settled by a sequence of events, in order. -/
def settleIdx (ops : List Op) : List Nat :=
  (settles ops).map Prod.fst

/-- The MGET state right after the field initialisation in
`MGETRequest::create` (lines 109-115): `num_pending_responses_ = N`, slots all
`Null` (default-constructed `RespValue`s), no handles live yet, nothing
delivered. -/
def MGETState.init (n : Nat) : MGETState :=
  { slots := List.replicate n RespValue.null
    handles := List.replicate n false
    numPending := n
    errorCount := 0
    delivered := [] }

/-- The events generated by the dispatch loop of `MGETRequest::create`
(lines 167-184): for each child `i` (0-based), either the pool returns a
handle (`arm i`) or it returns null and the child is settled immediately with
`Error("no upstream host")` through `PendingRequest::onResponse`, i.e.
`onChildResponse` at index `i` with `response_indexes = [i]`. -/
def MGETRequest.createOps (n : Nat) (accepts : List Bool) : List Op :=
  (List.range n).map fun i =>
    if accepts.getD i false then Op.arm i
    else Op.settle i (Utility.makeError "no upstream host")

/-- The host-collapse loop of `MGETRequest::create` (lines 128-143): for each
key, in order, call `conn_pool.getHost(hash_key)` and append
`(hash_key, original_index)` to the entry of the returned host.  The first
component of the result is `request_map`; the second is the ordered log of
`getHost` calls (by argument).  The map is used only to build log lines
(lines 145-165); it does not influence dispatch. -/
def MGETRequest.collapseKeys (getHost : String → String) :
    List (Nat × String) → List (String × List (String × Nat)) × List String
  | [] => ([], [])
  | (i, key) :: rest =>
      let host := getHost key
      let r := MGETRequest.collapseKeys getHost rest
      (insertEntry host (key, i) r.1, key :: r.2)
where
  /-- Insert a `(hash_key, index)` pair under `host`, mirroring the
  `request_map.find` / `push_back` / fresh-entry logic. -/
  insertEntry (host : String) (p : String × Nat) :
      List (String × List (String × Nat)) → List (String × List (String × Nat))
    | [] => [(host, [p])]
    | (h, ps) :: rest =>
        if h = host then (h, ps ++ [p]) :: rest
        else (h, ps) :: insertEntry host p rest

/-- Result of `MGETRequest::create`: the request state, whether a non-null
`SplitRequestPtr` was returned (`num_pending_responses_ > 0`), and the logs of
pool calls.  Each child dispatch sends the single-key sub-command
`["MGET", k_i]` routed by `k_i`. -/
structure MGETCreateResult where
  st : MGETState
  returned : Bool
  poolCalls : List (String × RespValue)
  hostCalls : List String

/-- `MGETRequest::create`.  `incoming_request` is the decoded array
(`["MGET", k_1, ..., k_N]`); `accepts` says, per child, whether
`conn_pool.makeRequest` returns a handle. -/
def MGETRequest.create (getHost : String → String) (incoming_request : List RespValue)
    (accepts : List Bool) : MGETCreateResult :=
  let n := incoming_request.length - 1
  let keys := (incoming_request.drop 1).map RespValue.asString
  let collapsed := MGETRequest.collapseKeys getHost ((List.range n).zip keys)
  let st := runFrom (MGETState.init n) (MGETRequest.createOps n accepts)
  { st := st
    returned := decide (0 < st.numPending)
    poolCalls := keys.map fun k => (k, RespValue.array [RespValue.bulk "MGET", RespValue.bulk k])
    hostCalls := collapsed.2 }

/-- Pool callbacks arriving after `create` returns: each pair `(i, v)` runs
`onChildResponse(v, i, [i])` for child `i` (a failure arrives as
`Error("upstream failure")` via `onChildFailure`). -/
def MGETRequest.runCallbacks (st : MGETState) (cbs : List (Nat × RespValue)) : MGETState :=
  cbs.foldl (fun s p => MGETRequest.onChildResponse s p.2 p.1 [p.1]) st

/-- A full MGET run: `create` followed by a sequence of child callbacks. -/
def MGETRequest.run (getHost : String → String) (incoming_request : List RespValue)
    (accepts : List Bool) (cbs : List (Nat × RespValue)) : MGETState :=
  MGETRequest.runCallbacks (MGETRequest.create getHost incoming_request accepts).st cbs

/-- The 0-based children whose pool dispatch succeeded. -/
def acceptedIdx (n : Nat) (accepts : List Bool) : List Nat :=
  (List.range n).filter fun i => accepts.getD i false

/-- The 0-based children rejected synchronously by the pool. -/
def rejectedIdx (n : Nat) (accepts : List Bool) : List Nat :=
  (List.range n).filter fun i => !(accepts.getD i false)

/-- `FragmentedRequest::cancel`: for every child with a live handle, invoke
`cancel()` on the pool handle and null the field.  Returns the new state and
the indexes whose pool handles received a `cancel()` call. -/
def FragmentedRequest.cancel (st : MGETState) : MGETState × List Nat :=
  ({ st with handles := st.handles.map fun _ => false },
   (List.range st.handles.length).filter fun i => st.handles.getD i false)

/-- The pool contract for event sequences after `create` has returned: a
child callback can only be dispatched for a handle that is live at that
moment (`Handle::cancel` guarantees no callback after it returns, and the
pool delivers at most one callback per handle), and no new handles appear. -/
def ValidFrom (st : MGETState) : List Op → Prop
  | [] => True
  | Op.arm _ :: _ => False
  | Op.settle i v :: rest =>
      st.handles.getD i false = true ∧ ValidFrom (applyOp st (Op.settle i v)) rest

/-! ## The splitter dispatcher (`InstanceImpl`) -/

/-- Modelled from the spec: `to_lower_table_.toLowerCase` (class
`ToLowerTable`, whose implementation is not under `src/`) folds case
ASCII-only (spec section 4.6 step 3 and section 9, "Case folding"): bytes
`A`-`Z` are mapped to `a`-`z`, every other byte is left unchanged. -/
def toLowerCase (s : String) : String :=
  String.mk (s.data.map fun c =>
    if 'A' ≤ c ∧ c ≤ 'Z' then Char.ofNat (c.toNat + 32) else c)

/-- Observable outcome of `InstanceImpl::makeRequest`: replies emitted
directly by the dispatcher, increments of the `invalid_request` and
`unsupported_command` counters, the per-command `total` counters bumped, and
the (lowercased) command whose handler's `startRequest` was invoked (`none`
when the dispatcher returned null without starting a request). -/
structure DispatchResult where
  emitted : List RespValue
  invalidInc : Nat
  unsupportedInc : Nat
  totalInc : List String
  handlerInvoked : Option String

/-- `InstanceImpl::onInvalidRequest`: bump `invalid_request`, reply
`Error("invalid request")`. -/
def InstanceImpl.onInvalidRequest : DispatchResult :=
  { emitted := [Utility.makeError "invalid request"]
    invalidInc := 1
    unsupportedInc := 0
    totalInc := []
    handlerInvoked := none }

/-- `InstanceImpl::makeRequest`, parameterised by the set of (lowercased)
command names in `command_map_` (populated from the supported-command catalog
at construction; `addHandler` lowercases each name before insertion).
Validation order mirrors the source: array-ness and `size >= 2` first, then
bulk-string-ness of every element, then the lowercased lookup. -/
def InstanceImpl.makeRequest (command_map : List String) (request : RespValue) :
    DispatchResult :=
  match request with
  | RespValue.array arr =>
    if arr.length < 2 then InstanceImpl.onInvalidRequest
    else if arr.all (fun v => v.rtype == RespType.BulkString) then
      let lowered := toLowerCase (arr.getD 0 RespValue.null).asString
      if lowered ∈ command_map then
        { emitted := []
          invalidInc := 0
          unsupportedInc := 0
          totalInc := [lowered]
          handlerInvoked := some lowered }
      else
        { emitted := [Utility.makeError
            ("unsupported command '" ++ (arr.getD 0 RespValue.null).asString ++ "'")]
          invalidInc := 0
          unsupportedInc := 1
          totalInc := []
          handlerInvoked := none }
    else InstanceImpl.onInvalidRequest
  | _ => InstanceImpl.onInvalidRequest

/-! ## List helper lemmas -/

theorem getD_set_self {α : Type} :
    ∀ (l : List α) (i : Nat) (a d : α), i < l.length → (l.set i a).getD i d = a
  | [], i, _, _, h => absurd h (by simp)
  | _ :: _, 0, _, _, _ => rfl
  | _ :: xs, i + 1, a, d, h =>
      getD_set_self xs i a d (Nat.lt_of_succ_lt_succ (by simpa using h))

theorem getD_set_ne {α : Type} :
    ∀ (l : List α) (i j : Nat) (a d : α), i ≠ j → (l.set i a).getD j d = l.getD j d
  | [], _, _, _, _, _ => rfl
  | _ :: _, 0, 0, _, _, h => absurd rfl h
  | _ :: _, 0, _ + 1, _, _, _ => rfl
  | _ :: _, _ + 1, 0, _, _, _ => rfl
  | _ :: xs, i + 1, j + 1, a, d, h =>
      getD_set_ne xs i j a d fun e => h (by rw [e])

theorem getD_replicate {α : Type} :
    ∀ (n i : Nat) (x d : α), i < n → (List.replicate n x).getD i d = x
  | 0, i, _, _, h => absurd h (Nat.not_lt_zero i)
  | _ + 1, 0, _, _, _ => rfl
  | n + 1, i + 1, x, d, h => getD_replicate n i x d (Nat.lt_of_succ_lt_succ h)

/-! ## The aggregation invariant for fragmented requests -/

/-- The state invariant of an MGET run over `n` children, relative to the
list `settled` of `(index, value)` pairs for which `onChildResponse` has run
so far (in order). -/
structure Inv (n : Nat) (settled : List (Nat × RespValue)) (st : MGETState) : Prop where
  slots_len : st.slots.length = n
  handles_len : st.handles.length = n
  pending : st.numPending = n - settled.length
  nodup : (settled.map Prod.fst).Nodup
  idx_lt : ∀ p ∈ settled, p.1 < n
  settled_slots : ∀ p ∈ settled,
    st.slots.getD p.1 RespValue.null = (MGETRequest.updateSlot p.2 [p.1]).1
  fresh_slots : ∀ i, i < n → i ∉ settled.map Prod.fst →
    st.slots.getD i RespValue.null = RespValue.null
  delivered_eq : st.delivered =
    if settled.length = n ∧ 0 < n then [RespValue.array st.slots] else []

theorem inv_init (n : Nat) : Inv n [] (MGETState.init n) := by
  refine ⟨by simp [MGETState.init], by simp [MGETState.init], by simp [MGETState.init],
    by simp, by simp, by simp, ?_, ?_⟩
  · intro i hi _
    exact getD_replicate n i RespValue.null RespValue.null hi
  · simp only [MGETState.init, List.length_nil]
    split
    case isTrue h =>
      exfalso
      omega
    case isFalse h => rfl

theorem inv_step {n : Nat} {settled : List (Nat × RespValue)} {st : MGETState}
    (hInv : Inv n settled st) (i : Nat) (v : RespValue)
    (hi : i < n) (hfresh : i ∉ settled.map Prod.fst) :
    Inv n (settled ++ [(i, v)]) (MGETRequest.onChildResponse st v i [i]) := by
  have hkle : settled.length + 1 ≤ n := by
    have hnd : (i :: settled.map Prod.fst).Nodup := List.nodup_cons.mpr ⟨hfresh, hInv.nodup⟩
    have hsub : (i :: settled.map Prod.fst) ⊆ List.range n := by
      intro a ha
      rcases List.mem_cons.mp ha with h | h
      · exact List.mem_range.mpr (h ▸ hi)
      · rcases List.mem_map.mp h with ⟨p, hp, he⟩
        exact List.mem_range.mpr (he ▸ hInv.idx_lt p hp)
    have hlen := (hnd.subperm hsub).length_le
    simpa using hlen
  have hklt : settled.length < n := hkle
  have hnp : st.numPending = n - settled.length := hInv.pending
  have hslotlen : i < st.slots.length := by rw [hInv.slots_len]; exact hi
  refine ⟨?_, ?_, ?_, ?_, ?_, ?_, ?_, ?_⟩
  · simp [MGETRequest.onChildResponse, hInv.slots_len]
  · simp [MGETRequest.onChildResponse, hInv.handles_len]
  · simp only [MGETRequest.onChildResponse, List.length_append, List.length_cons,
      List.length_nil]
    omega
  · rw [List.map_append]
    simp only [List.map_cons, List.map_nil]
    rw [List.nodup_append]
    refine ⟨hInv.nodup, List.nodup_singleton i, ?_⟩
    intro a ha hb
    rw [List.mem_singleton] at hb
    exact hfresh (hb ▸ ha)
  · intro p hp
    rcases List.mem_append.mp hp with h | h
    · exact hInv.idx_lt p h
    · rw [List.mem_singleton] at h
      rw [h]
      exact hi
  · intro p hp
    rcases List.mem_append.mp hp with h | h
    · have hne : p.1 ≠ i := fun e => hfresh (e ▸ List.mem_map_of_mem Prod.fst h)
      simp only [MGETRequest.onChildResponse]
      rw [getD_set_ne _ i p.1 _ _ fun e => hne e.symm]
      exact hInv.settled_slots p h
    · rw [List.mem_singleton] at h
      rw [h]
      simp only [MGETRequest.onChildResponse]
      exact getD_set_self _ i _ _ hslotlen
  · intro j hj hjmem
    rw [List.map_append] at hjmem
    simp only [List.map_cons, List.map_nil, List.mem_append, List.mem_singleton] at hjmem
    push_neg at hjmem
    simp only [MGETRequest.onChildResponse]
    rw [getD_set_ne _ i j _ _ fun e => hjmem.2 e.symm]
    exact hInv.fresh_slots j hj hjmem.1
  · have hstdel : st.delivered = [] := by
      rw [hInv.delivered_eq, if_neg]
      intro hc
      exact Nat.ne_of_lt hklt hc.1
    simp only [MGETRequest.onChildResponse, List.length_append, List.length_cons,
      List.length_nil]
    rw [hnp, hstdel]
    by_cases hz : n - settled.length - 1 = 0
    · rw [if_pos hz, List.nil_append]
      split
      · rfl
      · rename_i h
        exact absurd (by omega) h
    · rw [if_neg hz]
      split
      · rename_i h
        exact absurd h.1 (by omega)
      · rfl

theorem runOps_inv {n : Nat} :
    ∀ (ops : List Op) (settled : List (Nat × RespValue)) (st : MGETState),
      Inv n settled st →
      (∀ i ∈ settleIdx ops, i < n ∧ i ∉ settled.map Prod.fst) →
      (settleIdx ops).Nodup →
      Inv n (settled ++ settles ops) (runFrom st ops)
  | [], settled, st, hInv, _, _ => by
      simp only [settles, List.append_nil, runFrom, List.foldl_nil]
      exact hInv
  | Op.arm j :: rest, settled, st, hInv, hids, hnd => by
      have harm : Inv n settled (applyOp st (Op.arm j)) :=
        ⟨hInv.slots_len, by simpa [applyOp] using hInv.handles_len, hInv.pending, hInv.nodup,
          hInv.idx_lt, hInv.settled_slots, hInv.fresh_slots, hInv.delivered_eq⟩
      have hrec := runOps_inv rest settled (applyOp st (Op.arm j)) harm
        (by simpa [settleIdx, settles] using hids)
        (by simpa [settleIdx, settles] using hnd)
      simpa [runFrom, settles] using hrec
  | Op.settle i v :: rest, settled, st, hInv, hids, hnd => by
      have hmem : i ∈ settleIdx (Op.settle i v :: rest) := by simp [settleIdx, settles]
      obtain ⟨hi, hfresh⟩ := hids i hmem
      have hcons : settleIdx (Op.settle i v :: rest) = i :: settleIdx rest := by
        simp [settleIdx, settles]
      rw [hcons] at hnd
      have hinotin : i ∉ settleIdx rest := (List.nodup_cons.mp hnd).1
      have hnd' : (settleIdx rest).Nodup := (List.nodup_cons.mp hnd).2
      have hstep := inv_step hInv i v hi hfresh
      have hids' : ∀ j ∈ settleIdx rest, j < n ∧ j ∉ (settled ++ [(i, v)]).map Prod.fst := by
        intro j hj
        obtain ⟨hjn, hjfresh⟩ := hids j (by rw [hcons]; exact List.mem_cons_of_mem i hj)
        refine ⟨hjn, ?_⟩
        rw [List.map_append]
        intro hmem'
        rcases List.mem_append.mp hmem' with h | h
        · exact hjfresh h
        · simp only [List.map_cons, List.map_nil, List.mem_singleton] at h
          exact hinotin (h ▸ hj)
      have hrec := runOps_inv rest (settled ++ [(i, v)])
        (MGETRequest.onChildResponse st v i [i]) hstep hids' hnd'
      have heq : (settled ++ [(i, v)]) ++ settles rest
          = settled ++ settles (Op.settle i v :: rest) := by
        simp [settles, List.append_assoc]
      rw [heq] at hrec
      simpa [runFrom, applyOp] using hrec

/-! ## Decomposing runs into event sequences -/

theorem settles_append : ∀ (as bs : List Op), settles (as ++ bs) = settles as ++ settles bs
  | [], _ => rfl
  | Op.arm _ :: rest, bs => by simp [settles, settles_append rest bs]
  | Op.settle _ _ :: rest, bs => by simp [settles, settles_append rest bs]

theorem settles_map_settle : ∀ cbs : List (Nat × RespValue),
    settles (cbs.map fun p => Op.settle p.1 p.2) = cbs
  | [] => rfl
  | p :: rest => by simp [settles, settles_map_settle rest]

theorem settles_createOps (accepts : List Bool) : ∀ l : List Nat,
    settles (l.map fun i =>
        if accepts.getD i false then Op.arm i
        else Op.settle i (Utility.makeError "no upstream host"))
      = (l.filter fun i => !(accepts.getD i false)).map
          fun i => (i, Utility.makeError "no upstream host")
  | [] => rfl
  | x :: xs => by
      have ih := settles_createOps accepts xs
      simp only [List.getD_eq_getElem?_getD] at ih
      cases h : accepts.getD x false <;>
        · rw [List.getD_eq_getElem?_getD] at h
          simp [settles, h, ih, List.filter_cons]

theorem runFrom_append (st : MGETState) (as bs : List Op) :
    runFrom st (as ++ bs) = runFrom (runFrom st as) bs :=
  List.foldl_append applyOp st as bs

theorem runCallbacks_eq_runFrom (st : MGETState) (cbs : List (Nat × RespValue)) :
    MGETRequest.runCallbacks st cbs = runFrom st (cbs.map fun p => Op.settle p.1 p.2) := by
  rw [MGETRequest.runCallbacks, runFrom, List.foldl_map]
  rfl

theorem create_st_eq (getHost : String → String) (incoming_request : List RespValue)
    (accepts : List Bool) :
    (MGETRequest.create getHost incoming_request accepts).st
      = runFrom (MGETState.init (incoming_request.length - 1))
          (MGETRequest.createOps (incoming_request.length - 1) accepts) := rfl

theorem run_eq_runFrom (getHost : String → String) (incoming_request : List RespValue)
    (accepts : List Bool) (cbs : List (Nat × RespValue)) :
    MGETRequest.run getHost incoming_request accepts cbs
      = runFrom (MGETState.init (incoming_request.length - 1))
          (MGETRequest.createOps (incoming_request.length - 1) accepts
            ++ cbs.map fun p => Op.settle p.1 p.2) := by
  rw [MGETRequest.run, runCallbacks_eq_runFrom, create_st_eq, runFrom_append]

theorem settles_run_ops (n : Nat) (accepts : List Bool) (cbs : List (Nat × RespValue)) :
    settles (MGETRequest.createOps n accepts ++ cbs.map fun p => Op.settle p.1 p.2)
      = ((rejectedIdx n accepts).map fun i => (i, Utility.makeError "no upstream host"))
        ++ cbs := by
  rw [settles_append, settles_map_settle, MGETRequest.createOps,
    settles_createOps accepts (List.range n), rejectedIdx]

theorem mem_rejectedIdx {n i : Nat} {accepts : List Bool} :
    i ∈ rejectedIdx n accepts ↔ i < n ∧ accepts.getD i false = false := by
  simp [rejectedIdx, List.mem_filter, List.mem_range, Bool.not_eq_true']

theorem mem_acceptedIdx {n i : Nat} {accepts : List Bool} :
    i ∈ acceptedIdx n accepts ↔ i < n ∧ accepts.getD i false = true := by
  simp [acceptedIdx, List.mem_filter, List.mem_range]

theorem nodup_acceptedIdx (n : Nat) (accepts : List Bool) : (acceptedIdx n accepts).Nodup :=
  (List.nodup_range n).filter _

theorem nodup_rejectedIdx (n : Nat) (accepts : List Bool) : (rejectedIdx n accepts).Nodup :=
  (List.nodup_range n).filter _

theorem settleIdx_run_ops (n : Nat) (accepts : List Bool) (cbs : List (Nat × RespValue)) :
    settleIdx (MGETRequest.createOps n accepts ++ cbs.map fun p => Op.settle p.1 p.2)
      = rejectedIdx n accepts ++ cbs.map Prod.fst := by
  rw [settleIdx, settles_run_ops, List.map_append, List.map_map]
  rw [show (Prod.fst ∘ fun i => (i, Utility.makeError "no upstream host")) = id from rfl,
    List.map_id]

theorem length_filter_split {α : Type} (p : α → Bool) :
    ∀ l : List α, (l.filter p).length + (l.filter fun a => !(p a)).length = l.length
  | [] => rfl
  | x :: xs => by
      have ih := length_filter_split p xs
      cases h : p x <;> simp [List.filter_cons, h] <;> omega

/-- The final state of a complete MGET run satisfies the invariant with every
child settled. -/
theorem run_complete_inv (n : Nat) (accepts : List Bool) (cbs : List (Nat × RespValue))
    (hperm : (cbs.map Prod.fst).Perm (acceptedIdx n accepts)) :
    Inv n (settles (MGETRequest.createOps n accepts ++ cbs.map fun p => Op.settle p.1 p.2))
        (runFrom (MGETState.init n)
          (MGETRequest.createOps n accepts ++ cbs.map fun p => Op.settle p.1 p.2))
      ∧ (settles (MGETRequest.createOps n accepts
          ++ cbs.map fun p => Op.settle p.1 p.2)).length = n := by
  have hsi := settleIdx_run_ops n accepts cbs
  have hids : ∀ i ∈ settleIdx (MGETRequest.createOps n accepts
      ++ cbs.map fun p => Op.settle p.1 p.2),
      i < n ∧ i ∉ (([] : List (Nat × RespValue)).map Prod.fst) := by
    intro i hi
    rw [hsi] at hi
    refine ⟨?_, by simp⟩
    rcases List.mem_append.mp hi with h | h
    · exact (mem_rejectedIdx.mp h).1
    · exact (mem_acceptedIdx.mp (hperm.mem_iff.mp h)).1
  have hnd : (settleIdx (MGETRequest.createOps n accepts
      ++ cbs.map fun p => Op.settle p.1 p.2)).Nodup := by
    rw [hsi, List.nodup_append]
    refine ⟨nodup_rejectedIdx n accepts, hperm.nodup_iff.mpr (nodup_acceptedIdx n accepts), ?_⟩
    intro a ha hb
    have h1 := mem_rejectedIdx.mp ha
    have h2 := mem_acceptedIdx.mp (hperm.mem_iff.mp hb)
    rw [h1.2] at h2
    exact Bool.false_ne_true h2.2
  have hInv := runOps_inv _ [] (MGETState.init n) (inv_init n) hids hnd
  rw [List.nil_append] at hInv
  refine ⟨hInv, ?_⟩
  rw [settles_run_ops, List.length_append, List.length_map]
  have h1 : cbs.length = (acceptedIdx n accepts).length := by
    rw [← hperm.length_eq, List.length_map]
  have h2 := length_filter_split (fun i => accepts.getD i false) (List.range n)
  rw [List.length_range] at h2
  rw [h1]
  rw [acceptedIdx] at h1 ⊢
  rw [rejectedIdx]
  omega

theorem settles_take_append (ops : List Op) (k : Nat) :
    settles ops = settles (ops.take k) ++ settles (ops.drop k) := by
  rw [← settles_append, List.take_append_drop]

/-- The full event trace of an MGET request: the `create` loop followed by
the pool callbacks. -/
def MGETRequest.lifeOps (n : Nat) (accepts : List Bool) (cbs : List (Nat × RespValue)) :
    List Op :=
  MGETRequest.createOps n accepts ++ cbs.map fun p => Op.settle p.1 p.2

/-- The request state after the first `k` atomic steps of its life. -/
def MGETRequest.stateAt (n : Nat) (accepts : List Bool) (cbs : List (Nat × RespValue))
    (k : Nat) : MGETState :=
  runFrom (MGETState.init n) ((MGETRequest.lifeOps n accepts cbs).take k)

theorem run_prefix_inv (n : Nat) (accepts : List Bool) (cbs : List (Nat × RespValue))
    (hperm : (cbs.map Prod.fst).Perm (acceptedIdx n accepts)) (k : Nat) :
    Inv n (settles ((MGETRequest.lifeOps n accepts cbs).take k))
      (MGETRequest.stateAt n accepts cbs k) := by
  have hsi := settleIdx_run_ops n accepts cbs
  have hlt : ∀ i ∈ settleIdx (MGETRequest.lifeOps n accepts cbs), i < n := by
    intro i hi
    rw [MGETRequest.lifeOps, hsi] at hi
    rcases List.mem_append.mp hi with h | h
    · exact (mem_rejectedIdx.mp h).1
    · exact (mem_acceptedIdx.mp (hperm.mem_iff.mp h)).1
  have hnd : (settleIdx (MGETRequest.lifeOps n accepts cbs)).Nodup := by
    rw [MGETRequest.lifeOps, hsi, List.nodup_append]
    refine ⟨nodup_rejectedIdx n accepts, hperm.nodup_iff.mpr (nodup_acceptedIdx n accepts), ?_⟩
    intro a ha hb
    have h1 := mem_rejectedIdx.mp ha
    have h2 := mem_acceptedIdx.mp (hperm.mem_iff.mp hb)
    rw [h1.2] at h2
    exact Bool.false_ne_true h2.2
  have hsplit : settleIdx (MGETRequest.lifeOps n accepts cbs)
      = settleIdx ((MGETRequest.lifeOps n accepts cbs).take k)
        ++ settleIdx ((MGETRequest.lifeOps n accepts cbs).drop k) := by
    rw [settleIdx, settleIdx, settleIdx, settles_take_append (MGETRequest.lifeOps n accepts cbs) k,
      List.map_append]
  have hids : ∀ i ∈ settleIdx ((MGETRequest.lifeOps n accepts cbs).take k),
      i < n ∧ i ∉ (([] : List (Nat × RespValue)).map Prod.fst) := by
    intro i hi
    refine ⟨hlt i ?_, by simp⟩
    rw [hsplit]
    exact List.mem_append.mpr (Or.inl hi)
  have hndt : (settleIdx ((MGETRequest.lifeOps n accepts cbs).take k)).Nodup := by
    rw [hsplit] at hnd
    exact (List.nodup_append.mp hnd).1
  have hInv := runOps_inv _ [] (MGETState.init n) (inv_init n) hids hndt
  rw [List.nil_append] at hInv
  exact hInv

/-! ## Claim theorems -/

/-- C1: For every accepted MGET command with N keys (N ≥ 1), regardless of the
order in which child callbacks arrive (any permutation of the accepted
children) and regardless of each child's outcome (arbitrary reply value,
failure arriving as `Error("upstream failure")`, or synchronous pool
rejection), the single delivered reply is a RESP `Array` of length exactly N,
and the i-th slot holds exactly the aggregation of child i's outcome: the
`updateSlot` image of its callback value, or `Error("no upstream host")` for a
rejected child. -/
theorem mget_reply_ordered_array (getHost : String → String)
    (incoming_request : List RespValue) (accepts : List Bool)
    (cbs : List (Nat × RespValue))
    (hlen : 2 ≤ incoming_request.length)
    (hperm : (cbs.map Prod.fst).Perm (acceptedIdx (incoming_request.length - 1) accepts)) :
    (MGETRequest.run getHost incoming_request accepts cbs).delivered
        = [RespValue.array (MGETRequest.run getHost incoming_request accepts cbs).slots]
      ∧ (MGETRequest.run getHost incoming_request accepts cbs).slots.length
          = incoming_request.length - 1
      ∧ (∀ p ∈ cbs,
          (MGETRequest.run getHost incoming_request accepts cbs).slots.getD p.1 RespValue.null
            = (MGETRequest.updateSlot p.2 [p.1]).1)
      ∧ (∀ i, i < incoming_request.length - 1 → accepts.getD i false = false →
          (MGETRequest.run getHost incoming_request accepts cbs).slots.getD i RespValue.null
            = Utility.makeError "no upstream host") := by
  have hrun := run_eq_runFrom getHost incoming_request accepts cbs
  obtain ⟨hInv, hslen⟩ :=
    run_complete_inv (incoming_request.length - 1) accepts cbs hperm
  have hn : 0 < incoming_request.length - 1 := by omega
  refine ⟨?_, ?_, ?_, ?_⟩
  · rw [hrun]
    have hd := hInv.delivered_eq
    rw [if_pos ⟨hslen, hn⟩] at hd
    exact hd
  · rw [hrun]
    exact hInv.slots_len
  · intro p hp
    rw [hrun]
    refine hInv.settled_slots p ?_
    rw [settles_run_ops]
    exact List.mem_append.mpr (Or.inr hp)
  · intro i hi hrej
    rw [hrun]
    have hmem : (i, Utility.makeError "no upstream host")
        ∈ settles (MGETRequest.createOps (incoming_request.length - 1) accepts
          ++ cbs.map fun p => Op.settle p.1 p.2) := by
      rw [settles_run_ops]
      refine List.mem_append.mpr (Or.inl ?_)
      exact List.mem_map_of_mem _ (mem_rejectedIdx.mpr ⟨hi, hrej⟩)
    exact hInv.settled_slots _ hmem

/-- Witness for C1 at a concrete run: `MGET a b` where child 0 is accepted and
later answers `BulkString("x")` while child 1 is rejected by the pool. -/
theorem mget_reply_ordered_array_witness :
    (MGETRequest.run (fun _ => "h")
        [RespValue.bulk "MGET", RespValue.bulk "a", RespValue.bulk "b"]
        [true, false] [(0, RespValue.bulk "x")]).delivered
      = [RespValue.array
          (MGETRequest.run (fun _ => "h")
            [RespValue.bulk "MGET", RespValue.bulk "a", RespValue.bulk "b"]
            [true, false] [(0, RespValue.bulk "x")]).slots] :=
  (mget_reply_ordered_array (fun _ => "h")
    [RespValue.bulk "MGET", RespValue.bulk "a", RespValue.bulk "b"]
    [true, false] [(0, RespValue.bulk "x")] (by decide) (by decide)).1

/-- C2: For every accepted command exactly one `onResponse` is delivered over
the request's lifetime.  For MGET: along the whole run (create steps followed
by child callbacks in any order), `num_pending_responses_` is monotonically
non-increasing, and at every point of the run exactly one reply has been
delivered if `num_pending_responses_` has reached zero and none otherwise —
so the aggregated reply is delivered inside the very call that decremented it
to zero, exactly once.  For accepted Simple/Eval requests, `create` emits
nothing and the child's settle delivers exactly one reply. -/
theorem mget_single_delivery (getHost : String → String)
    (incoming_request : List RespValue) (accepts : List Bool)
    (cbs : List (Nat × RespValue))
    (hlen : 2 ≤ incoming_request.length)
    (hperm : (cbs.map Prod.fst).Perm (acceptedIdx (incoming_request.length - 1) accepts)) :
    (∀ k₁ k₂, k₁ ≤ k₂ →
        (MGETRequest.stateAt (incoming_request.length - 1) accepts cbs k₂).numPending
          ≤ (MGETRequest.stateAt (incoming_request.length - 1) accepts cbs k₁).numPending)
      ∧ (∀ k, (MGETRequest.stateAt (incoming_request.length - 1) accepts cbs k).delivered.length
          = if (MGETRequest.stateAt (incoming_request.length - 1) accepts cbs k).numPending = 0
            then 1 else 0)
      ∧ (MGETRequest.run getHost incoming_request accepts cbs).delivered.length = 1
      ∧ (∀ (accept : String → Bool) (r : List RespValue) (ss : SSState) (v : RespValue),
          (SimpleRequest.create accept r).result = some ss →
            ss.delivered = [] ∧ (SingleServerRequest.onResponse ss v).delivered = [v])
      ∧ (∀ (accept : String → Bool) (r : List RespValue) (ss : SSState) (v : RespValue),
          (EvalRequest.create accept r).result = some ss →
            ss.delivered = [] ∧ (SingleServerRequest.onResponse ss v).delivered = [v]) := by
  have hn : 0 < incoming_request.length - 1 := by omega
  obtain ⟨hInvFull, hslen⟩ :=
    run_complete_inv (incoming_request.length - 1) accepts cbs hperm
  have hbound : ∀ k,
      (settles ((MGETRequest.lifeOps (incoming_request.length - 1) accepts cbs).take k)).length
        ≤ incoming_request.length - 1 := by
    intro k
    have hsp := settles_take_append
      (MGETRequest.lifeOps (incoming_request.length - 1) accepts cbs) k
    have : (settles (MGETRequest.lifeOps (incoming_request.length - 1) accepts cbs)).length
        = incoming_request.length - 1 := hslen
    rw [hsp, List.length_append] at this
    omega
  refine ⟨?_, ?_, ?_, ?_, ?_⟩
  · intro k₁ k₂ hk
    have h1 := (run_prefix_inv (incoming_request.length - 1) accepts cbs hperm k₁).pending
    have h2 := (run_prefix_inv (incoming_request.length - 1) accepts cbs hperm k₂).pending
    rw [h1, h2]
    have hsp := settles_take_append
      ((MGETRequest.lifeOps (incoming_request.length - 1) accepts cbs).take k₂) k₁
    rw [List.take_take, Nat.min_eq_left hk] at hsp
    have : (settles ((MGETRequest.lifeOps (incoming_request.length - 1) accepts cbs).take k₁)).length
        ≤ (settles ((MGETRequest.lifeOps (incoming_request.length - 1) accepts cbs).take k₂)).length := by
      rw [hsp, List.length_append]
      omega
    omega
  · intro k
    have hInvK := run_prefix_inv (incoming_request.length - 1) accepts cbs hperm k
    have hp := hInvK.pending
    have hd := hInvK.delivered_eq
    have hb := hbound k
    by_cases hc :
        (settles ((MGETRequest.lifeOps (incoming_request.length - 1) accepts cbs).take k)).length
          = incoming_request.length - 1
    · rw [hd, if_pos ⟨hc, hn⟩, hp, hc]
      simp
    · rw [hd, if_neg fun hx => hc hx.1, hp]
      rw [if_neg (by omega)]
      rfl
  · have hd := hInvFull.delivered_eq
    rw [if_pos ⟨hslen, hn⟩] at hd
    rw [run_eq_runFrom, hd]
    rfl
  · intro accept r ss v h
    by_cases ha : accept ((r.getD 1 RespValue.null).asString)
    · simp only [SimpleRequest.create, if_pos ha] at h
      obtain rfl := Option.some.inj h.symm
      constructor
      · rfl
      · rfl
    · simp only [SimpleRequest.create, if_neg ha] at h
      exact absurd h (by simp)
  · intro accept r ss v h
    by_cases hl : r.length < 4
    · simp only [EvalRequest.create, if_pos hl] at h
      exact absurd h (by simp)
    · by_cases ha : accept ((r.getD 3 RespValue.null).asString)
      · simp only [EvalRequest.create, if_neg hl, if_pos ha] at h
        obtain rfl := Option.some.inj h.symm
        constructor
        · rfl
        · rfl
      · simp only [EvalRequest.create, if_neg hl, if_neg ha] at h
        exact absurd h (by simp)

/-- Witness for C2 at a concrete run: a one-key MGET whose child is accepted
and answers `Null`. -/
theorem mget_single_delivery_witness :
    (MGETRequest.run (fun _ => "h") [RespValue.bulk "MGET", RespValue.bulk "a"]
        [true] [(0, RespValue.null)]).delivered.length = 1 :=
  (mget_single_delivery (fun _ => "h") [RespValue.bulk "MGET", RespValue.bulk "a"]
    [true] [(0, RespValue.null)] (by decide) (by decide)).2.2.1

/-- C3: For every child reply delivered to `MGETRequest::onChildResponse` at
slot `i`: a `BulkString` moves its bytes into the slot AND increments
`error_count_` (the Q1 quirk); an `Error` moves its bytes in and increments
`error_count_`; an `Integer` or `SimpleString` turns the slot into
`Error("upstream protocol error")` and increments `error_count_`; a `Null`
leaves the slot `Null` and `error_count_` unchanged. -/
theorem mget_child_aggregation_cases (st : MGETState) (i : Nat) (s t : String) (m : Int)
    (hi : i < st.slots.length) :
    ((MGETRequest.onChildResponse st (RespValue.bulk s) i [i]).slots.getD i RespValue.null
        = RespValue.bulk s
      ∧ (MGETRequest.onChildResponse st (RespValue.bulk s) i [i]).errorCount
        = st.errorCount + 1)
    ∧ ((MGETRequest.onChildResponse st (RespValue.error t) i [i]).slots.getD i RespValue.null
        = RespValue.error t
      ∧ (MGETRequest.onChildResponse st (RespValue.error t) i [i]).errorCount
        = st.errorCount + 1)
    ∧ ((MGETRequest.onChildResponse st (RespValue.integer m) i [i]).slots.getD i RespValue.null
        = Utility.makeError "upstream protocol error"
      ∧ (MGETRequest.onChildResponse st (RespValue.integer m) i [i]).errorCount
        = st.errorCount + 1)
    ∧ ((MGETRequest.onChildResponse st (RespValue.simple t) i [i]).slots.getD i RespValue.null
        = Utility.makeError "upstream protocol error"
      ∧ (MGETRequest.onChildResponse st (RespValue.simple t) i [i]).errorCount
        = st.errorCount + 1)
    ∧ ((MGETRequest.onChildResponse st RespValue.null i [i]).slots.getD i RespValue.null
        = RespValue.null
      ∧ (MGETRequest.onChildResponse st RespValue.null i [i]).errorCount = st.errorCount) :=
  ⟨⟨getD_set_self _ i _ _ hi, rfl⟩,
   ⟨getD_set_self _ i _ _ hi, rfl⟩,
   ⟨getD_set_self _ i _ _ hi, rfl⟩,
   ⟨getD_set_self _ i _ _ hi, rfl⟩,
   ⟨getD_set_self _ i _ _ hi, rfl⟩⟩

/-- Witness for C3: the `BulkString` case (bytes moved in, `error_count_`
bumped) on a fresh one-child request. -/
theorem mget_child_aggregation_cases_witness :
    (MGETRequest.onChildResponse (MGETState.init 1) (RespValue.bulk "v") 0 [0]).slots.getD 0
        RespValue.null = RespValue.bulk "v"
      ∧ (MGETRequest.onChildResponse (MGETState.init 1) (RespValue.bulk "v") 0 [0]).errorCount
        = (MGETState.init 1).errorCount + 1 :=
  (mget_child_aggregation_cases (MGETState.init 1) 0 "v" "e" 7
    (by simp [MGETState.init])).1

theorem getD_map_false : ∀ (l : List Bool) (i : Nat),
    (l.map fun _ => false).getD i false = false
  | [], _ => rfl
  | _ :: _, 0 => rfl
  | _ :: xs, i + 1 => getD_map_false xs i

theorem validFrom_cancel_nil (st : MGETState) (ops : List Op)
    (h : ValidFrom (FragmentedRequest.cancel st).1 ops) : ops = [] := by
  cases ops with
  | nil => rfl
  | cons op rest =>
    cases op with
    | arm j => exact absurd h (by simp [ValidFrom])
    | settle i v =>
      have h1 : (st.handles.map fun _ => false).getD i false = true := h.1
      rw [getD_map_false st.handles i] at h1
      exact absurd h1 Bool.false_ne_true

/-- Counterexample to C4 as stated: the claim covers every SplitRequest, but
for SimpleRequest/EvalRequest (`SingleServerRequest`), a second `cancel()` is
not harmless — `cancel` unconditionally dereferences `handle_`, which the
first cancel set to null, so the second call dereferences a null pointer
(modelled as `none`) instead of returning with no effect. -/
theorem cancel_second_call_cex :
    SingleServerRequest.cancel { handle := true, delivered := [] }
        = some { handle := false, delivered := [] }
      ∧ SingleServerRequest.cancel { handle := false, delivered := [] } = none :=
  ⟨rfl, rfl⟩

/-- C4 (amended): for `FragmentedRequest` (MGETRequest), `cancel()` is
synchronous and idempotent in effect — a second cancel changes nothing and
cancels no pool handle, cancel itself delivers no `onResponse`, afterwards
every handle field is null, pool-handle `cancel()` was invoked exactly on the
children whose handles were live, and no pool-contract-respecting sequence of
child callbacks can run after cancel (so no further delivery or mutation).
For SimpleRequest/EvalRequest a single `cancel()` on a live handle nulls it
and delivers nothing, but a second `cancel()` dereferences a null handle. -/
theorem frag_cancel_idempotent (st : MGETState) (ops : List Op) :
    (FragmentedRequest.cancel (FragmentedRequest.cancel st).1).1
        = (FragmentedRequest.cancel st).1
      ∧ (FragmentedRequest.cancel (FragmentedRequest.cancel st).1).2 = []
      ∧ (FragmentedRequest.cancel st).1.delivered = st.delivered
      ∧ (∀ i, (FragmentedRequest.cancel st).1.handles.getD i false = false)
      ∧ (∀ i, i ∈ (FragmentedRequest.cancel st).2 ↔
          i < st.handles.length ∧ st.handles.getD i false = true)
      ∧ (ValidFrom (FragmentedRequest.cancel st).1 ops →
          ops = [] ∧ runFrom (FragmentedRequest.cancel st).1 ops
            = (FragmentedRequest.cancel st).1)
      ∧ (∀ ss : SSState, ss.handle = true →
          SingleServerRequest.cancel ss = some { handle := false, delivered := ss.delivered }) := by
  refine ⟨?_, ?_, rfl, ?_, ?_, ?_, ?_⟩
  · simp [FragmentedRequest.cancel, List.map_map]
  · simp only [FragmentedRequest.cancel]
    rw [List.filter_eq_nil_iff]
    intro a _
    rw [getD_map_false]
    simp
  · intro i
    exact getD_map_false st.handles i
  · intro i
    simp [FragmentedRequest.cancel, List.mem_filter, List.mem_range]
  · intro h
    have hnil := validFrom_cancel_nil st ops h
    subst hnil
    exact ⟨rfl, rfl⟩
  · intro ss hss
    simp [SingleServerRequest.cancel, hss]

/-- Witness for C4 (amended): cancelling a two-child request with child 0
live and child 1 already settled invokes the pool-handle cancel exactly on
child 0. -/
theorem frag_cancel_idempotent_witness :
    0 ∈ (FragmentedRequest.cancel
        { slots := [RespValue.null, RespValue.null], handles := [true, false],
          numPending := 1, errorCount := 0, delivered := [] }).2 :=
  ((frag_cancel_idempotent
      { slots := [RespValue.null, RespValue.null], handles := [true, false],
        numPending := 1, errorCount := 0, delivered := [] } []).2.2.2.2.1 0).mpr
    (by decide)

/-- C10: `SingleServerRequest::cancel` is safe only while the single child
handle is live: it returns normally exactly when `handle_` is non-null (and
then nulls it, satisfying the destructor's assertion), while calling it after
`onResponse`/`onFailure` has settled the request — or after a previous
`cancel` — dereferences a null handle (`none`). -/
theorem single_server_cancel_null_deref (st : SSState) (v : RespValue) :
    (SingleServerRequest.cancel st = none ↔ st.handle = false)
      ∧ (SingleServerRequest.onResponse st v).handle = false
      ∧ (SingleServerRequest.onFailure st).handle = false
      ∧ SingleServerRequest.cancel (SingleServerRequest.onResponse st v) = none
      ∧ SingleServerRequest.cancel (SingleServerRequest.onFailure st) = none
      ∧ (∀ st', SingleServerRequest.cancel st = some st' →
          st'.handle = false ∧ SingleServerRequest.cancel st' = none) := by
  refine ⟨?_, rfl, rfl, rfl, rfl, ?_⟩
  · cases h : st.handle <;> simp [SingleServerRequest.cancel, h]
  · intro st' hs
    cases h : st.handle with
    | false => simp [SingleServerRequest.cancel, h] at hs
    | true =>
      simp only [SingleServerRequest.cancel, h, if_pos] at hs
      obtain rfl := Option.some.inj hs
      exact ⟨rfl, rfl⟩

/-- Witness for C10: cancelling an already-settled request (null handle)
faults. -/
theorem single_server_cancel_null_deref_witness :
    SingleServerRequest.cancel { handle := false, delivered := [] } = none :=
  (single_server_cancel_null_deref { handle := false, delivered := [] }
    RespValue.null).1.mpr rfl

theorem collapseKeys_calls (getHost : String → String) : ∀ l : List (Nat × String),
    (MGETRequest.collapseKeys getHost l).2 = l.map Prod.snd
  | [] => rfl
  | (i, k) :: rest => by
      simp [MGETRequest.collapseKeys, collapseKeys_calls getHost rest]

theorem map_snd_zip_eq {α β : Type} : ∀ (l1 : List α) (l2 : List β),
    l2.length ≤ l1.length → (l1.zip l2).map Prod.snd = l2
  | _, [], _ => by simp
  | [], _ :: _, h => absurd h (by simp)
  | a :: as, b :: bs, h => by
      simp only [List.zip_cons_cons, List.map_cons]
      rw [map_snd_zip_eq as bs (by simpa using h)]

/-- Counterexample to C5 as stated: processing an accepted one-key MGET does
call `conn_pool.getHost` (once, with the key), from the host-collapse loop in
`MGETRequest::create`. -/
theorem mget_calls_getHost_cex :
    (MGETRequest.create (fun k => k)
        [RespValue.bulk "MGET", RespValue.bulk "a"] [true]).hostCalls = ["a"]
      ∧ (MGETRequest.create (fun k => k)
        [RespValue.bulk "MGET", RespValue.bulk "a"] [true]).hostCalls ≠ [] :=
  ⟨rfl, by decide⟩

/-- C5 (amended): while handling an MGET with N keys, `MGETRequest::create`
calls `pool.getHost` exactly N times — once per input key, in key order,
from the host-collapse block whose result is used only for logging — and
SimpleRequest/EvalRequest processing performs no `getHost` calls. -/
theorem dispatcher_getHost_calls (getHost : String → String)
    (incoming_request : List RespValue) (accepts : List Bool) (accept : String → Bool) :
    (MGETRequest.create getHost incoming_request accepts).hostCalls
        = (incoming_request.drop 1).map RespValue.asString
      ∧ (SimpleRequest.create accept incoming_request).hostCalls = []
      ∧ (EvalRequest.create accept incoming_request).hostCalls = [] := by
  refine ⟨?_, ?_, ?_⟩
  · simp only [MGETRequest.create]
    rw [collapseKeys_calls]
    refine map_snd_zip_eq _ _ ?_
    simp [List.length_range]
  · rw [SimpleRequest.create]
    split <;> rfl
  · rw [EvalRequest.create]
    split
    · rfl
    · dsimp only
      split <;> rfl

theorem unsupported_ne_invalid (s : String) :
    RespValue.error ("unsupported command '" ++ s ++ "'")
      ≠ RespValue.error "invalid request" := by
  intro h
  injection h with hs
  have hlen := congrArg String.length hs
  rw [String.length_append, String.length_append,
    show ("unsupported command '" : String).length = 21 from rfl,
    show ("'" : String).length = 1 from rfl,
    show ("invalid request" : String).length = 15 from rfl] at hlen
  omega

/-- C6: `InstanceImpl::makeRequest` replies `Error("invalid request")`, bumps
the `invalid_request` counter and returns null exactly when the input is not
a RESP Array, or has fewer than 2 elements, or has an element that is not a
BulkString; in every other case the counter is untouched and the
`"invalid request"` error is never produced. -/
theorem dispatcher_invalid_request (command_map : List String) (request : RespValue) :
    (((InstanceImpl.makeRequest command_map request).invalidInc = 1
        ∧ (InstanceImpl.makeRequest command_map request).emitted
          = [Utility.makeError "invalid request"]
        ∧ (InstanceImpl.makeRequest command_map request).handlerInvoked = none)
      ↔ (match request with
          | RespValue.array arr => arr.length < 2 ∨ ∃ v ∈ arr, v.rtype ≠ RespType.BulkString
          | _ => True))
    ∧ (¬ (match request with
          | RespValue.array arr => arr.length < 2 ∨ ∃ v ∈ arr, v.rtype ≠ RespType.BulkString
          | _ => True) →
        (InstanceImpl.makeRequest command_map request).invalidInc = 0
          ∧ Utility.makeError "invalid request"
            ∉ (InstanceImpl.makeRequest command_map request).emitted) := by
  cases request with
  | array arr =>
    by_cases h2 : arr.length < 2
    · refine ⟨⟨fun _ => Or.inl h2, fun _ => ?_⟩, fun hnb => absurd (Or.inl h2) hnb⟩
      simp [InstanceImpl.makeRequest, if_pos h2, InstanceImpl.onInvalidRequest]
    · by_cases hall : arr.all (fun v => v.rtype == RespType.BulkString)
      · have hbad : ¬(arr.length < 2 ∨ ∃ v ∈ arr, v.rtype ≠ RespType.BulkString) := by
          rw [List.all_eq_true] at hall
          push_neg
          refine ⟨by omega, fun v hv => ?_⟩
          have := hall v hv
          rwa [beq_iff_eq] at this
        constructor
        · constructor
          · intro hl
            exfalso
            have h1 := hl.1
            simp only [InstanceImpl.makeRequest, if_neg h2, if_pos hall] at h1
            by_cases hm : toLowerCase ((arr.getD 0 RespValue.null).asString) ∈ command_map
            · rw [if_pos hm] at h1
              exact absurd h1 (by simp)
            · rw [if_neg hm] at h1
              exact absurd h1 (by simp)
          · intro hb
            exact absurd hb hbad
        · intro _
          constructor
          · simp only [InstanceImpl.makeRequest, if_neg h2, if_pos hall]
            by_cases hm : toLowerCase ((arr.getD 0 RespValue.null).asString) ∈ command_map
            · rw [if_pos hm]
            · rw [if_neg hm]
          · simp only [InstanceImpl.makeRequest, if_neg h2, if_pos hall]
            by_cases hm : toLowerCase ((arr.getD 0 RespValue.null).asString) ∈ command_map
            · rw [if_pos hm]
              simp
            · rw [if_neg hm]
              simp only [List.mem_singleton, Utility.makeError]
              exact fun h => unsupported_ne_invalid _ h.symm
      · have hbad : ∃ v ∈ arr, v.rtype ≠ RespType.BulkString := by
          by_contra hno
          push_neg at hno
          apply hall
          rw [List.all_eq_true]
          intro v hv
          rw [beq_iff_eq]
          exact hno v hv
        refine ⟨⟨fun _ => Or.inr hbad, fun _ => ?_⟩, fun hnb => absurd (Or.inr hbad) hnb⟩
        simp [InstanceImpl.makeRequest, if_neg h2, hall, InstanceImpl.onInvalidRequest]
  | simple s => exact ⟨⟨fun _ => trivial, fun _ => ⟨rfl, rfl, rfl⟩⟩, fun hnb => absurd trivial hnb⟩
  | error s => exact ⟨⟨fun _ => trivial, fun _ => ⟨rfl, rfl, rfl⟩⟩, fun hnb => absurd trivial hnb⟩
  | integer m => exact ⟨⟨fun _ => trivial, fun _ => ⟨rfl, rfl, rfl⟩⟩, fun hnb => absurd trivial hnb⟩
  | bulk s => exact ⟨⟨fun _ => trivial, fun _ => ⟨rfl, rfl, rfl⟩⟩, fun hnb => absurd trivial hnb⟩
  | null => exact ⟨⟨fun _ => trivial, fun _ => ⟨rfl, rfl, rfl⟩⟩, fun hnb => absurd trivial hnb⟩

/-- Witness for C6: a non-array input yields the invalid-request outcome. -/
theorem dispatcher_invalid_request_witness :
    (InstanceImpl.makeRequest ["get", "mget"] (RespValue.integer 5)).invalidInc = 1 :=
  ((dispatcher_invalid_request ["get", "mget"] (RespValue.integer 5)).1.mpr trivial).1

theorem invalid_no_unsupported :
    InstanceImpl.onInvalidRequest.unsupportedInc = 1 ↔
      ∃ s, InstanceImpl.onInvalidRequest.emitted
        = [RespValue.error ("unsupported command '" ++ s ++ "'")] := by
  constructor
  · intro h
    exact absurd h (by simp [InstanceImpl.onInvalidRequest])
  · rintro ⟨s, hs⟩
    simp only [InstanceImpl.onInvalidRequest, Utility.makeError, List.cons.injEq,
      and_true] at hs
    exact absurd hs.symm (unsupported_ne_invalid s)

/-- C7: for every well-formed request (Array of at least 2 BulkStrings) whose
ASCII-lowercased command name is absent from the handler map, the dispatcher
bumps `unsupported_command`, replies
`Error("unsupported command '<name>'")` with the client's original casing,
and returns null without starting a request; and across all inputs, the
`unsupported_command` counter is bumped exactly when such an error reply is
produced. -/
theorem dispatcher_unsupported_command (command_map : List String) (arr : List RespValue)
    (hlen : 2 ≤ arr.length)
    (hbulk : ∀ v ∈ arr, v.rtype = RespType.BulkString)
    (habs : toLowerCase ((arr.getD 0 RespValue.null).asString) ∉ command_map) :
    ((InstanceImpl.makeRequest command_map (RespValue.array arr)).unsupportedInc = 1
      ∧ (InstanceImpl.makeRequest command_map (RespValue.array arr)).emitted
        = [Utility.makeError
            ("unsupported command '" ++ (arr.getD 0 RespValue.null).asString ++ "'")]
      ∧ (InstanceImpl.makeRequest command_map (RespValue.array arr)).handlerInvoked = none)
    ∧ (∀ req : RespValue, (InstanceImpl.makeRequest command_map req).unsupportedInc = 1
        ↔ ∃ s, (InstanceImpl.makeRequest command_map req).emitted
            = [RespValue.error ("unsupported command '" ++ s ++ "'")]) := by
  have hall : arr.all (fun v => v.rtype == RespType.BulkString) = true := by
    rw [List.all_eq_true]
    intro v hv
    rw [beq_iff_eq]
    exact hbulk v hv
  have h2 : ¬arr.length < 2 := by omega
  constructor
  · simp only [InstanceImpl.makeRequest, if_neg h2, if_pos hall, if_neg habs]
    simp [Utility.makeError]
  · intro req
    cases req with
    | array arr' =>
      by_cases h2' : arr'.length < 2
      · simp only [InstanceImpl.makeRequest, if_pos h2']
        exact invalid_no_unsupported
      · by_cases hall' : arr'.all (fun v => v.rtype == RespType.BulkString)
        · by_cases hm : toLowerCase ((arr'.getD 0 RespValue.null).asString) ∈ command_map
          · simp only [InstanceImpl.makeRequest, if_neg h2', if_pos hall', if_pos hm]
            constructor
            · intro h
              exact absurd h (by simp)
            · rintro ⟨s, hs⟩
              exact absurd hs (by simp)
          · simp only [InstanceImpl.makeRequest, if_neg h2', if_pos hall', if_neg hm]
            constructor
            · intro _
              exact ⟨(arr'.getD 0 RespValue.null).asString, rfl⟩
            · intro _
              trivial
        · simp only [InstanceImpl.makeRequest, if_neg h2', if_neg hall']
          exact invalid_no_unsupported
    | simple s => exact invalid_no_unsupported
    | error s => exact invalid_no_unsupported
    | integer m => exact invalid_no_unsupported
    | bulk s => exact invalid_no_unsupported
    | null => exact invalid_no_unsupported

/-- Witness for C7: `WATCH x` is well-formed but unsupported; the reply keeps
the original upper-case spelling. -/
theorem dispatcher_unsupported_command_witness :
    (InstanceImpl.makeRequest ["get", "mget"]
        (RespValue.array [RespValue.bulk "WATCH", RespValue.bulk "x"])).emitted
      = [Utility.makeError "unsupported command 'WATCH'"] :=
  (dispatcher_unsupported_command ["get", "mget"]
    [RespValue.bulk "WATCH", RespValue.bulk "x"] (by decide)
    (by
      intro v hv
      simp only [List.mem_cons, List.not_mem_nil, or_false] at hv
      rcases hv with h | h <;> rw [h] <;> rfl)
    (by decide)).1.2.1

/-- C8: `EvalRequest::create` on an array shorter than 4 delivers
`Error("wrong number of arguments for '<cmd>' command")` with the command
taken from element 0, returns null, and never calls `pool.makeRequest`;
for length ≥ 4 the routing key passed to the pool is element 3 and the full
request is forwarded unchanged. -/
theorem eval_arity_and_routing (accept : String → Bool)
    (incoming_request : List RespValue) :
    (incoming_request.length < 4 →
        (EvalRequest.create accept incoming_request).emitted
            = [Utility.makeError ("wrong number of arguments for '"
                ++ (incoming_request.getD 0 RespValue.null).asString ++ "' command")]
          ∧ (EvalRequest.create accept incoming_request).result = none
          ∧ (EvalRequest.create accept incoming_request).poolCalls = [])
      ∧ (4 ≤ incoming_request.length →
          (EvalRequest.create accept incoming_request).poolCalls
            = [((incoming_request.getD 3 RespValue.null).asString,
                RespValue.array incoming_request)]) := by
  constructor
  · intro h
    simp only [EvalRequest.create, if_pos h]
    simp [SplitRequestBase.onWrongNumberOfArguments, Utility.makeError]
  · intro h
    have h4 : ¬incoming_request.length < 4 := by omega
    simp only [EvalRequest.create, if_neg h4]
    by_cases ha : accept ((incoming_request.getD 3 RespValue.null).asString)
    · rw [if_pos ha]
    · rw [if_neg ha]

/-- Witness for C8: a length-3 EVAL yields the wrong-arity error and no pool
call. -/
theorem eval_arity_and_routing_witness :
    (EvalRequest.create (fun _ => true)
        [RespValue.bulk "EVAL", RespValue.bulk "return 1", RespValue.bulk "0"]).emitted
      = [Utility.makeError "wrong number of arguments for 'EVAL' command"] :=
  ((eval_arity_and_routing (fun _ => true)
    [RespValue.bulk "EVAL", RespValue.bulk "return 1", RespValue.bulk "0"]).1
    (by decide)).1

theorem create_inv (n : Nat) (accepts : List Bool) :
    Inv n (settles (MGETRequest.createOps n accepts))
      (runFrom (MGETState.init n) (MGETRequest.createOps n accepts)) := by
  have hsi := settleIdx_run_ops n accepts []
  simp only [List.map_nil, List.append_nil] at hsi
  have hids : ∀ i ∈ settleIdx (MGETRequest.createOps n accepts),
      i < n ∧ i ∉ (([] : List (Nat × RespValue)).map Prod.fst) := by
    intro i hi
    rw [hsi] at hi
    exact ⟨(mem_rejectedIdx.mp hi).1, by simp⟩
  have hnd : (settleIdx (MGETRequest.createOps n accepts)).Nodup := by
    rw [hsi]
    exact nodup_rejectedIdx n accepts
  have h := runOps_inv _ [] (MGETState.init n) (inv_init n) hids hnd
  rw [List.nil_append] at h
  exact h

theorem settles_createOps_length (n : Nat) (accepts : List Bool) :
    (settles (MGETRequest.createOps n accepts)).length = (rejectedIdx n accepts).length := by
  rw [MGETRequest.createOps, settles_createOps accepts (List.range n), List.length_map,
    rejectedIdx]

/-- C9: when `pool.makeRequest` returns null — for Simple/Eval the whole
request fails with `Error("no upstream host")` delivered synchronously inside
`create`, which returns null; for MGET the rejection is per child:
`Error("no upstream host")` is recorded in that child's slot through the
`onChildResponse` path, `num_pending_responses_` ends up as the number of
accepted children, and if every child is rejected the full `Array` reply is
delivered inside `create`, which returns null. -/
theorem pool_rejection_handling (accept : String → Bool) (getHost : String → String)
    (incoming_request : List RespValue) (accepts : List Bool) :
    (accept ((incoming_request.getD 1 RespValue.null).asString) = false →
        (SimpleRequest.create accept incoming_request).emitted
            = [Utility.makeError "no upstream host"]
          ∧ (SimpleRequest.create accept incoming_request).result = none)
      ∧ (4 ≤ incoming_request.length →
          accept ((incoming_request.getD 3 RespValue.null).asString) = false →
          (EvalRequest.create accept incoming_request).emitted
              = [Utility.makeError "no upstream host"]
            ∧ (EvalRequest.create accept incoming_request).result = none)
      ∧ (∀ i, i < incoming_request.length - 1 → accepts.getD i false = false →
          (MGETRequest.create getHost incoming_request accepts).st.slots.getD i RespValue.null
            = Utility.makeError "no upstream host")
      ∧ (MGETRequest.create getHost incoming_request accepts).st.numPending
          = (incoming_request.length - 1)
            - (rejectedIdx (incoming_request.length - 1) accepts).length
      ∧ ((∀ i, i < incoming_request.length - 1 → accepts.getD i false = false) →
          2 ≤ incoming_request.length →
          (MGETRequest.create getHost incoming_request accepts).st.delivered
              = [RespValue.array (MGETRequest.create getHost incoming_request accepts).st.slots]
            ∧ (MGETRequest.create getHost incoming_request accepts).returned = false) := by
  have hInvC := create_inv (incoming_request.length - 1) accepts
  have hpend := hInvC.pending
  rw [settles_createOps_length] at hpend
  refine ⟨?_, ?_, ?_, ?_, ?_⟩
  · intro ha
    simp only [SimpleRequest.create, ha, Bool.false_eq_true, if_false]
    simp [Utility.makeError]
  · intro hl ha
    have h4 : ¬incoming_request.length < 4 := by omega
    simp only [EvalRequest.create, if_neg h4, ha, Bool.false_eq_true, if_false]
    simp [Utility.makeError]
  · intro i hi hrej
    have hmem : (i, Utility.makeError "no upstream host")
        ∈ settles (MGETRequest.createOps (incoming_request.length - 1) accepts) := by
      rw [MGETRequest.createOps, settles_createOps accepts (List.range (incoming_request.length - 1))]
      refine List.mem_map_of_mem _ ?_
      rw [List.mem_filter, List.mem_range]
      exact ⟨hi, by rw [hrej]; rfl⟩
    rw [create_st_eq]
    exact hInvC.settled_slots _ hmem
  · rw [create_st_eq]
    exact hpend
  · intro hall hlen
    have hn : 0 < incoming_request.length - 1 := by omega
    have hfull : rejectedIdx (incoming_request.length - 1) accepts
        = List.range (incoming_request.length - 1) := by
      rw [rejectedIdx]
      refine List.filter_eq_self.mpr ?_
      intro a ha
      rw [hall a (List.mem_range.mp ha)]
      rfl
    have hlenfull : (settles (MGETRequest.createOps (incoming_request.length - 1) accepts)).length
        = incoming_request.length - 1 := by
      rw [settles_createOps_length, hfull, List.length_range]
    constructor
    · rw [create_st_eq]
      have hd := hInvC.delivered_eq
      rw [if_pos ⟨hlenfull, hn⟩] at hd
      exact hd
    · have hzero : (runFrom (MGETState.init (incoming_request.length - 1))
          (MGETRequest.createOps (incoming_request.length - 1) accepts)).numPending = 0 := by
        rw [hpend, hfull, List.length_range]
        omega
      simp only [MGETRequest.create]
      rw [hzero]
      rfl

/-- Witness for C9: a one-key MGET whose only child is rejected delivers the
full error array inside create and returns null. -/
theorem pool_rejection_handling_witness :
    (MGETRequest.create (fun k => k)
        [RespValue.bulk "MGET", RespValue.bulk "a"] [false]).returned = false :=
  ((pool_rejection_handling (fun _ => true) (fun k => k)
      [RespValue.bulk "MGET", RespValue.bulk "a"] [false]).2.2.2.2
    (by
      intro i hi
      simp only [List.length_cons, List.length_nil] at hi
      have h0 : i = 0 := by omega
      subst h0
      rfl)
    (by decide)).2

end RedisSplitter
